import Mathlib

/-!
Verification of the `tldns` DNS-over-TLS forwarding proxy
(`src/tldns/server.py`), as a shallow embedding in Lean 4.

Bytes are modelled as `Nat` (values `< 256` where it matters), byte
sequences as `List Nat`.  The external DNS codec (`dns.message` /
`dns.query` from dnspython) is modelled as an abstract `Codec` record,
and the single upstream UDP exchange as an oracle `udp : Msg → Option Msg`
(`none` = timeout or any network-level failure, which in Python surfaces
as an exception caught by `forward_dns_query`).
-/

namespace Tldns

/-- `int.from_bytes(bs, byteorder="big")` on a list of byte values. -/
def from_bytes_be (bs : List Nat) : Nat :=
  bs.foldl (fun acc b => 256 * acc + b) 0

/-- `n.to_bytes(2, byteorder="big")` for `n < 2^16`.  The Python call
raises `OverflowError` for larger `n`; the caller in `handle_client`
models that raise explicitly, so this function is only ever applied
in-range there. -/
def to_bytes2 (n : Nat) : List Nat :=
  [n / 256 % 256, n % 256]

/-- `dns.rcode.SERVFAIL` (wire value 2). -/
def SERVFAIL : Nat := 2

/-- The external DNS codec (dnspython), §6 of the spec: an external
collaborator, trusted as correct.  `from_wire` is strict full-message
decoding (`dns.message.from_wire`); `none` models a raised exception.
`make_response` is `dns.message.make_response`, `set_rcode` is
`Message.set_rcode`, `to_wire` is `Message.to_wire`.  `ident`,
`question` and `rcode` are the message accessors. -/
structure Codec (Msg : Type) where
  from_wire : List Nat → Option Msg
  make_response : Msg → Msg
  set_rcode : Msg → Nat → Msg
  to_wire : Msg → List Nat
  ident : Msg → Nat
  question : Msg → List Nat
  rcode : Msg → Nat

/-- `DNSOverTLSServer.create_error_response` (server.py:82-92):
strict decode of the query bytes; on success build a response, set
rcode SERVFAIL and serialize; on any failure return `b""`. -/
def create_error_response {Msg : Type} (c : Codec Msg) (query_data : List Nat) :
    List Nat :=
  match c.from_wire query_data with
  | none => []
  | some query => c.to_wire (c.set_rcode (c.make_response query) SERVFAIL)

/-- `DNSOverTLSServer.forward_dns_query` (server.py:60-80): decode the
query; on success do one UDP exchange with the upstream resolver
(`udp`, `none` = timeout/network failure) and serialize the answer; any
failure falls back to `create_error_response` on the original bytes. -/
def forward_dns_query {Msg : Type} (c : Codec Msg) (udp : Msg → Option Msg)
    (query_data : List Nat) : List Nat :=
  match c.from_wire query_data with
  | none => create_error_response c query_data
  | some query =>
    match udp query with
    | none => create_error_response c query_data
    | some response => c.to_wire response

/-- Outcome of one `ssl_sock.recv(n)` call: either delivered bytes
(empty = peer closed / EOF) or a raised socket exception. -/
inductive RecvResult
  | data : List Nat → RecvResult
  | err : RecvResult
deriving DecidableEq, Repr

/-- Observable action of `handle_client` on its socket.  `recvA n r`
is a `recv(n)` call returning `r`; `fwdA q resp` is a call to
`forward_dns_query` on payload `q` returning `resp`; `sendA bs ok` is a
`send(bs)` call (`ok = false` = raised); `closeA` is `close()`. -/
inductive Action
  | recvA : Nat → RecvResult → Action
  | fwdA : List Nat → List Nat → Action
  | sendA : List Nat → Bool → Action
  | closeA : Action
deriving DecidableEq, Repr

/-- How the `while True` loop of `handle_client` was left. -/
inductive Exit
  | cleanEOF
  | shortLength
  | shortPayload
  | recvExc
  | sendExc
  | overflowExc
deriving DecidableEq, Repr

/-- The network oracle for one connection: the outcomes of the
successive `recv` calls, and of the successive `send` calls.  An
exhausted `recv` schedule behaves as EOF; an exhausted `send` schedule
as success. -/
structure NetSched where
  recvs : List RecvResult
  sends : List Bool
deriving Repr

/-- One `ssl_sock.recv(n)`: consume the next scheduled outcome; a TCP
read returns at most `n` bytes, so delivered data is capped at `n`. -/
def recvStep (n : Nat) : List RecvResult → RecvResult × List RecvResult
  | [] => (.data [], [])
  | .data bs :: rest => (.data (bs.take n), rest)
  | .err :: rest => (.err, rest)

/-- One `ssl_sock.send(bs)`: consume the next scheduled outcome. -/
def sendStep : List Bool → Bool × List Bool
  | [] => (true, [])
  | ok :: rest => (ok, rest)

/-- Result of the inner payload-accumulation loop
(server.py:116-121): the accumulated bytes, or a raised exception,
plus the recv trace and remaining recv schedule. -/
inductive PayloadOut
  | ok : List Nat → PayloadOut
  | exc : PayloadOut
deriving DecidableEq, Repr

/-- The inner loop of `handle_client` (server.py:116-121):
`while len(query_data) < query_length: chunk = recv(remaining);
if not chunk: break; query_data += chunk`.  A chunk is capped at the
requested count (`List.take`), mirroring `recv`; an empty chunk means
the peer closed, ending the loop early. -/
def readPayload (target : Nat) (acc : List Nat) (sched : List RecvResult) :
    List Action × PayloadOut × List RecvResult :=
  if acc.length < target then
    match sched with
    | [] => ([Action.recvA (target - acc.length) (.data [])], .ok acc, [])
    | .err :: rest => ([Action.recvA (target - acc.length) .err], .exc, rest)
    | .data bs :: rest =>
      match bs.take (target - acc.length) with
      | [] => ([Action.recvA (target - acc.length) (.data [])], .ok acc, rest)
      | b :: cs =>
        match readPayload target (acc ++ b :: cs) rest with
        | (tr, out, rem) =>
          (Action.recvA (target - acc.length) (.data (b :: cs)) :: tr, out, rem)
  else
    ([], .ok acc, sched)
termination_by sched.length

theorem readPayload_sched_le (target : Nat) (acc : List Nat)
    (sched : List RecvResult) :
    (readPayload target acc sched).2.2.length ≤ sched.length := by
  induction sched generalizing acc with
  | nil => rw [readPayload.eq_def]; split <;> simp
  | cons r rest ih =>
    rw [readPayload.eq_def]
    split
    · match r with
      | .err => simp
      | .data bs =>
        cases htk : bs.take (target - acc.length) with
        | nil => simp [htk]
        | cons b cs =>
          have h2 := ih (acc ++ b :: cs)
          rcases hrp : readPayload target (acc ++ b :: cs) rest with ⟨tr, out, rem⟩
          rw [hrp] at h2
          simp only [htk, hrp, List.length_cons]
          simpa using Nat.le_succ_of_le h2
    · simp

/-- The `while True` body of `handle_client` (server.py:100-137),
parametric in the forwarding function `fwd` (the body calls
`self.forward_dns_query`).  Per iteration: `recv(2)` for the length
prefix — empty read breaks cleanly, a 1-byte read breaks as a protocol
violation; decode big-endian length; inner payload loop; a length
mismatch breaks; otherwise forward and send the framed response
(`len(resp).to_bytes(2, "big")` raises `OverflowError` when the
response exceeds 65535 bytes, before anything is sent).  Any raised
exception leaves the loop.  Returns the action trace and exit kind. -/
def handleLoop (fwd : List Nat → List Nat) (sched : List RecvResult)
    (sends : List Bool) : List Action × Exit :=
  match sched with
  | [] => ([Action.recvA 2 (.data [])], .cleanEOF)
  | .err :: _ => ([Action.recvA 2 .err], .recvExc)
  | .data bs :: rest =>
    match bs.take 2 with
    | [] => ([Action.recvA 2 (.data [])], .cleanEOF)
    | [b] => ([Action.recvA 2 (.data [b])], .shortLength)
    | b1 :: b2 :: tl =>
      match hrp : readPayload (from_bytes_be (b1 :: b2 :: tl)) [] rest with
      | (ptr, .exc, _) =>
        (Action.recvA 2 (.data (b1 :: b2 :: tl)) :: ptr, .recvExc)
      | (ptr, .ok qd, rem) =>
        if qd.length ≠ from_bytes_be (b1 :: b2 :: tl) then
          (Action.recvA 2 (.data (b1 :: b2 :: tl)) :: ptr, .shortPayload)
        else
          if 65536 ≤ (fwd qd).length then
            (Action.recvA 2 (.data (b1 :: b2 :: tl)) :: ptr ++
              [Action.fwdA qd (fwd qd)], .overflowExc)
          else
            match sendStep sends with
            | (ok, sends') =>
              if ok then
                match handleLoop fwd rem sends' with
                | (tr, e) =>
                  (Action.recvA 2 (.data (b1 :: b2 :: tl)) :: ptr ++
                    [Action.fwdA qd (fwd qd),
                     Action.sendA (to_bytes2 (fwd qd).length ++ fwd qd) true] ++
                    tr, e)
              else
                (Action.recvA 2 (.data (b1 :: b2 :: tl)) :: ptr ++
                  [Action.fwdA qd (fwd qd),
                   Action.sendA (to_bytes2 (fwd qd).length ++ fwd qd) false],
                  .sendExc)
termination_by sched.length
decreasing_by
  have hle := readPayload_sched_le (from_bytes_be (b1 :: b2 :: tl)) [] rest
  rw [hrp] at hle
  simp only at hle
  simp only [List.length_cons]
  omega

/-- `DNSOverTLSServer.handle_client` (server.py:94-145): run the
framing loop inside `try`/`except`/`finally`; whatever the exit path,
the `finally` closes the TLS socket, which the trace records as a
final `closeA`. -/
def handle_client (fwd : List Nat → List Nat) (ns : NetSched) :
    List Action × Exit :=
  ((handleLoop fwd ns.recvs ns.sends).1 ++ [Action.closeA],
   (handleLoop fwd ns.recvs ns.sends).2)

/-- `a` is a `recv` action. -/
def isRecv : Action → Bool
  | .recvA _ _ => true
  | _ => false

/-- `a` is the `close()` action. -/
def isClose : Action → Bool
  | .closeA => true
  | _ => false

/-- Number of `close()` calls in a trace. -/
def closeCount (tr : List Action) : Nat :=
  tr.countP isClose

/-- Every forwarder response in the trace whose length fits the 16-bit
framing field is immediately written as exactly the 2-byte big-endian
encoding of its actual length followed by its bytes, and no other
`send` ever happens. -/
def framedResponses : List Action → Bool
  | [] => true
  | .fwdA _ r :: tr =>
    if r.length ≤ 65535 then
      match tr with
      | .sendA bs _ :: tr2 =>
        decide (bs = to_bytes2 r.length ++ r) && framedResponses tr2
      | _ => false
    else framedResponses tr
  | .sendA _ _ :: _ => false
  | _ :: tr => framedResponses tr

/-- A concrete message type to evaluate the model on: an identifier,
a question section and a result code. -/
structure TestMsg where
  tid : Nat
  qsec : List Nat
  rc : Nat
deriving DecidableEq, Repr

/-- A concrete executable codec instance: byte 0 is the identifier,
byte 1 the rcode, the remainder the question section; fewer than two
bytes fail to decode. -/
def testCodec : Codec TestMsg where
  from_wire := fun bs =>
    match bs with
    | t :: r :: q => some ⟨t, q, r⟩
    | _ => none
  make_response := fun m => ⟨m.tid, m.qsec, 0⟩
  set_rcode := fun m r => ⟨m.tid, m.qsec, r⟩
  to_wire := fun m => m.tid :: m.rc :: m.qsec
  ident := fun m => m.tid
  question := fun m => m.qsec
  rcode := fun m => m.rc

theorem readPayload_trace_recvs (target : Nat) (acc : List Nat)
    (sched : List RecvResult) :
    ∀ a ∈ (readPayload target acc sched).1, isRecv a = true := by
  induction sched generalizing acc with
  | nil =>
    rw [readPayload.eq_def]
    split <;> simp [isRecv]
  | cons r rest ih =>
    rw [readPayload.eq_def]
    split
    · match r with
      | .err => simp [isRecv]
      | .data bs =>
        cases htk : bs.take (target - acc.length) with
        | nil => simp [htk, isRecv]
        | cons b cs =>
          have h2 := ih (acc ++ b :: cs)
          rcases hrp : readPayload target (acc ++ b :: cs) rest with ⟨tr, out, rem⟩
          rw [hrp] at h2
          simp only [htk, hrp]
          intro a ha
          rcases List.mem_cons.mp ha with h | h
          · subst h; rfl
          · exact h2 a h
    · simp

theorem framedResponses_append_recvs (ptr tr : List Action)
    (h : ∀ a ∈ ptr, isRecv a = true) :
    framedResponses (ptr ++ tr) = framedResponses tr := by
  induction ptr with
  | nil => rfl
  | cons a ptr ih =>
    have ha : isRecv a = true := h a (List.mem_cons_self a ptr)
    match a, ha with
    | .recvA n r, _ =>
      rw [List.cons_append]
      show framedResponses (ptr ++ tr) = framedResponses tr
      exact ih fun a ha' => h a (List.mem_cons_of_mem _ ha')

theorem closeCount_append (l1 l2 : List Action) :
    closeCount (l1 ++ l2) = closeCount l1 + closeCount l2 :=
  List.countP_append _ _ _

theorem closeCount_recvs (ptr : List Action)
    (h : ∀ a ∈ ptr, isRecv a = true) : closeCount ptr = 0 := by
  induction ptr with
  | nil => rfl
  | cons a ptr ih =>
    have ha : isRecv a = true := h a (List.mem_cons_self a ptr)
    have htail := ih fun a ha' => h a (List.mem_cons_of_mem _ ha')
    match a, ha with
    | .recvA n r, _ =>
      simp only [closeCount, List.countP_cons] at htail ⊢
      simpa [isClose] using htail

theorem handleLoop_nil (fwd : List Nat → List Nat) (sends : List Bool) :
    handleLoop fwd [] sends = ([Action.recvA 2 (.data [])], .cleanEOF) := by
  rw [handleLoop.eq_def]

theorem handleLoop_err (fwd : List Nat → List Nat) (rest : List RecvResult)
    (sends : List Bool) :
    handleLoop fwd (.err :: rest) sends =
      ([Action.recvA 2 .err], .recvExc) := by
  rw [handleLoop.eq_def]

theorem handleLoop_eof (fwd : List Nat → List Nat) (bs : List Nat)
    (rest : List RecvResult) (sends : List Bool) (htk : bs.take 2 = []) :
    handleLoop fwd (.data bs :: rest) sends =
      ([Action.recvA 2 (.data [])], .cleanEOF) := by
  rw [handleLoop.eq_def]
  simp only [htk]

theorem handleLoop_short (fwd : List Nat → List Nat) (bs : List Nat)
    (rest : List RecvResult) (sends : List Bool) (b : Nat)
    (htk : bs.take 2 = [b]) :
    handleLoop fwd (.data bs :: rest) sends =
      ([Action.recvA 2 (.data [b])], .shortLength) := by
  rw [handleLoop.eq_def]
  simp only [htk]

theorem handleLoop_payloadExc (fwd : List Nat → List Nat) (bs : List Nat)
    (rest : List RecvResult) (sends : List Bool) (b1 b2 : Nat) (tl : List Nat)
    (ptr : List Action) (snd : List RecvResult)
    (htk : bs.take 2 = b1 :: b2 :: tl)
    (heq : readPayload (from_bytes_be (b1 :: b2 :: tl)) [] rest =
      (ptr, .exc, snd)) :
    handleLoop fwd (.data bs :: rest) sends =
      (Action.recvA 2 (.data (b1 :: b2 :: tl)) :: ptr, .recvExc) := by
  rw [handleLoop.eq_def]
  simp only [htk]
  split <;> rename_i heq2
  · rw [heq] at heq2
    simp only [Prod.mk.injEq] at heq2
    simp [heq2.1]
  · rw [heq] at heq2
    simp at heq2

theorem handleLoop_mismatch (fwd : List Nat → List Nat) (bs : List Nat)
    (rest : List RecvResult) (sends : List Bool) (b1 b2 : Nat) (tl : List Nat)
    (ptr : List Action) (qd : List Nat) (rem : List RecvResult)
    (htk : bs.take 2 = b1 :: b2 :: tl)
    (heq : readPayload (from_bytes_be (b1 :: b2 :: tl)) [] rest =
      (ptr, .ok qd, rem))
    (hne : qd.length ≠ from_bytes_be (b1 :: b2 :: tl)) :
    handleLoop fwd (.data bs :: rest) sends =
      (Action.recvA 2 (.data (b1 :: b2 :: tl)) :: ptr, .shortPayload) := by
  rw [handleLoop.eq_def]
  simp only [htk]
  split <;> rename_i heq2
  · rw [heq] at heq2
    simp at heq2
  · rw [heq] at heq2
    simp only [Prod.mk.injEq, PayloadOut.ok.injEq] at heq2
    obtain ⟨h1, h2, h3⟩ := heq2
    subst h1 h2 h3
    simp [hne]

theorem handleLoop_overflow (fwd : List Nat → List Nat) (bs : List Nat)
    (rest : List RecvResult) (sends : List Bool) (b1 b2 : Nat) (tl : List Nat)
    (ptr : List Action) (qd : List Nat) (rem : List RecvResult)
    (htk : bs.take 2 = b1 :: b2 :: tl)
    (heq : readPayload (from_bytes_be (b1 :: b2 :: tl)) [] rest =
      (ptr, .ok qd, rem))
    (hlen : qd.length = from_bytes_be (b1 :: b2 :: tl))
    (hov : 65536 ≤ (fwd qd).length) :
    handleLoop fwd (.data bs :: rest) sends =
      (Action.recvA 2 (.data (b1 :: b2 :: tl)) ::
        ptr ++ [Action.fwdA qd (fwd qd)], .overflowExc) := by
  rw [handleLoop.eq_def]
  simp only [htk]
  split <;> rename_i heq2
  · rw [heq] at heq2
    simp at heq2
  · rw [heq] at heq2
    simp only [Prod.mk.injEq, PayloadOut.ok.injEq] at heq2
    obtain ⟨h1, h2, h3⟩ := heq2
    subst h1 h2 h3
    simp [hlen, hov]

theorem handleLoop_sendOk (fwd : List Nat → List Nat) (bs : List Nat)
    (rest : List RecvResult) (sends : List Bool) (b1 b2 : Nat) (tl : List Nat)
    (ptr : List Action) (qd : List Nat) (rem : List RecvResult)
    (sends' : List Bool)
    (htk : bs.take 2 = b1 :: b2 :: tl)
    (heq : readPayload (from_bytes_be (b1 :: b2 :: tl)) [] rest =
      (ptr, .ok qd, rem))
    (hlen : qd.length = from_bytes_be (b1 :: b2 :: tl))
    (hov : (fwd qd).length < 65536)
    (hsend : sendStep sends = (true, sends')) :
    handleLoop fwd (.data bs :: rest) sends =
      (Action.recvA 2 (.data (b1 :: b2 :: tl)) :: ptr ++
        [Action.fwdA qd (fwd qd),
         Action.sendA (to_bytes2 (fwd qd).length ++ fwd qd) true] ++
        (handleLoop fwd rem sends').1,
       (handleLoop fwd rem sends').2) := by
  rw [handleLoop.eq_def]
  simp only [htk]
  split <;> rename_i heq2
  · rw [heq] at heq2
    simp at heq2
  · rw [heq] at heq2
    simp only [Prod.mk.injEq, PayloadOut.ok.injEq] at heq2
    obtain ⟨h1, h2, h3⟩ := heq2
    subst h1 h2 h3
    simp [hlen, Nat.not_le.mpr hov, hsend]

theorem handleLoop_sendFail (fwd : List Nat → List Nat) (bs : List Nat)
    (rest : List RecvResult) (sends : List Bool) (b1 b2 : Nat) (tl : List Nat)
    (ptr : List Action) (qd : List Nat) (rem : List RecvResult)
    (sends' : List Bool)
    (htk : bs.take 2 = b1 :: b2 :: tl)
    (heq : readPayload (from_bytes_be (b1 :: b2 :: tl)) [] rest =
      (ptr, .ok qd, rem))
    (hlen : qd.length = from_bytes_be (b1 :: b2 :: tl))
    (hov : (fwd qd).length < 65536)
    (hsend : sendStep sends = (false, sends')) :
    handleLoop fwd (.data bs :: rest) sends =
      (Action.recvA 2 (.data (b1 :: b2 :: tl)) :: ptr ++
        [Action.fwdA qd (fwd qd),
         Action.sendA (to_bytes2 (fwd qd).length ++ fwd qd) false],
       .sendExc) := by
  rw [handleLoop.eq_def]
  simp only [htk]
  split <;> rename_i heq2
  · rw [heq] at heq2
    simp at heq2
  · rw [heq] at heq2
    simp only [Prod.mk.injEq, PayloadOut.ok.injEq] at heq2
    obtain ⟨h1, h2, h3⟩ := heq2
    subst h1 h2 h3
    simp [hlen, Nat.not_le.mpr hov, hsend]

theorem handleLoop_closeCount (fwd : List Nat → List Nat)
    (sched : List RecvResult) (sends : List Bool) :
    closeCount (handleLoop fwd sched sends).1 = 0 := by
  induction sched, sends using handleLoop.induct fwd with
  | case1 sends =>
    simp [handleLoop_nil, closeCount, isClose]
  | case2 sends rest =>
    simp [handleLoop_err, closeCount, isClose]
  | case3 sends bs rest htk =>
    simp [handleLoop_eof fwd bs rest sends htk, closeCount, isClose]
  | case4 sends bs rest b htk =>
    simp [handleLoop_short fwd bs rest sends b htk, closeCount, isClose]
  | case5 sends bs rest b1 b2 tl htk ptr snd heq =>
    have hp := readPayload_trace_recvs (from_bytes_be (b1 :: b2 :: tl)) [] rest
    rw [heq] at hp
    simp only at hp
    have h0 : List.countP isClose ptr = 0 := closeCount_recvs ptr hp
    rw [handleLoop_payloadExc fwd bs rest sends b1 b2 tl ptr snd htk heq]
    simp [closeCount, List.countP_cons, isClose, h0]
  | case6 sends bs rest b1 b2 tl htk ptr qd rem heq hne =>
    have hp := readPayload_trace_recvs (from_bytes_be (b1 :: b2 :: tl)) [] rest
    rw [heq] at hp
    simp only at hp
    have h0 : List.countP isClose ptr = 0 := closeCount_recvs ptr hp
    rw [handleLoop_mismatch fwd bs rest sends b1 b2 tl ptr qd rem htk heq hne]
    simp [closeCount, List.countP_cons, isClose, h0]
  | case7 sends bs rest b1 b2 tl htk ptr qd rem heq hne hov =>
    have hp := readPayload_trace_recvs (from_bytes_be (b1 :: b2 :: tl)) [] rest
    rw [heq] at hp
    simp only at hp
    have h0 : List.countP isClose ptr = 0 := closeCount_recvs ptr hp
    rw [handleLoop_overflow fwd bs rest sends b1 b2 tl ptr qd rem htk heq
      (not_ne_iff.mp hne) hov]
    simp [closeCount, List.countP_cons, List.countP_append, isClose, h0]
  | case8 sends bs rest b1 b2 tl htk ptr qd rem heq hne hov sends' tr e
      heqLoop hsend ih =>
    have hp := readPayload_trace_recvs (from_bytes_be (b1 :: b2 :: tl)) [] rest
    rw [heq] at hp
    simp only at hp
    have h0 : List.countP isClose ptr = 0 := closeCount_recvs ptr hp
    have hrec : List.countP isClose (handleLoop fwd rem sends').1 = 0 := ih
    rw [handleLoop_sendOk fwd bs rest sends b1 b2 tl ptr qd rem sends' htk heq
      (not_ne_iff.mp hne) (Nat.not_le.mp hov) hsend]
    simp [closeCount, List.countP_cons, List.countP_append, isClose, h0, hrec]
  | case9 sends bs rest b1 b2 tl htk ptr qd rem heq hne hov ok sends' hsend
      hok =>
    have hp := readPayload_trace_recvs (from_bytes_be (b1 :: b2 :: tl)) [] rest
    rw [heq] at hp
    simp only at hp
    have h0 : List.countP isClose ptr = 0 := closeCount_recvs ptr hp
    have hf : ok = false := by revert hok; cases ok <;> simp
    rw [hf] at hsend
    rw [handleLoop_sendFail fwd bs rest sends b1 b2 tl ptr qd rem sends' htk
      heq (not_ne_iff.mp hne) (Nat.not_le.mp hov) hsend]
    simp [closeCount, List.countP_cons, List.countP_append, isClose, h0]

theorem framedResponses_cons_recv (n : Nat) (r : RecvResult)
    (tr : List Action) :
    framedResponses (Action.recvA n r :: tr) = framedResponses tr := rfl

theorem framedResponses_cons_close (tr : List Action) :
    framedResponses (Action.closeA :: tr) = framedResponses tr := rfl

theorem framedResponses_cons_fwd_big (q r : List Nat) (tr : List Action)
    (h : ¬r.length ≤ 65535) :
    framedResponses (Action.fwdA q r :: tr) = framedResponses tr := by
  rcases tr with _ | ⟨a, tr2⟩
  · rw [framedResponses.eq_3 _ _ _ (by intro bs u v h2; cases h2), if_neg h]
  · cases a with
    | sendA bs ok => rw [framedResponses.eq_2, if_neg h]
    | recvA n r2 =>
      rw [framedResponses.eq_3 _ _ _ (by intro bs u v h2; cases h2), if_neg h]
    | fwdA q2 r2 =>
      rw [framedResponses.eq_3 _ _ _ (by intro bs u v h2; cases h2), if_neg h]
    | closeA =>
      rw [framedResponses.eq_3 _ _ _ (by intro bs u v h2; cases h2), if_neg h]

theorem framedResponses_cons_fwd_send (q r bs : List Nat) (ok : Bool)
    (tr : List Action) (h : r.length ≤ 65535) :
    framedResponses (Action.fwdA q r :: Action.sendA bs ok :: tr) =
      (decide (bs = to_bytes2 r.length ++ r) && framedResponses tr) := by
  rw [framedResponses.eq_2, if_pos h]

theorem handleLoop_framed (fwd : List Nat → List Nat)
    (sched : List RecvResult) (sends : List Bool) (suffix : List Action) :
    framedResponses ((handleLoop fwd sched sends).1 ++ suffix) =
      framedResponses suffix := by
  induction sched, sends using handleLoop.induct fwd generalizing suffix with
  | case1 sends =>
    simp [handleLoop_nil, framedResponses_cons_recv]
  | case2 sends rest =>
    simp [handleLoop_err, framedResponses_cons_recv]
  | case3 sends bs rest htk =>
    simp [handleLoop_eof fwd bs rest sends htk, framedResponses_cons_recv]
  | case4 sends bs rest b htk =>
    simp [handleLoop_short fwd bs rest sends b htk, framedResponses_cons_recv]
  | case5 sends bs rest b1 b2 tl htk ptr snd heq =>
    have hp := readPayload_trace_recvs (from_bytes_be (b1 :: b2 :: tl)) [] rest
    rw [heq] at hp
    simp only at hp
    rw [handleLoop_payloadExc fwd bs rest sends b1 b2 tl ptr snd htk heq]
    simp only [List.cons_append, framedResponses_cons_recv]
    exact framedResponses_append_recvs ptr suffix hp
  | case6 sends bs rest b1 b2 tl htk ptr qd rem heq hne =>
    have hp := readPayload_trace_recvs (from_bytes_be (b1 :: b2 :: tl)) [] rest
    rw [heq] at hp
    simp only at hp
    rw [handleLoop_mismatch fwd bs rest sends b1 b2 tl ptr qd rem htk heq hne]
    simp only [List.cons_append, framedResponses_cons_recv]
    exact framedResponses_append_recvs ptr suffix hp
  | case7 sends bs rest b1 b2 tl htk ptr qd rem heq hne hov =>
    have hp := readPayload_trace_recvs (from_bytes_be (b1 :: b2 :: tl)) [] rest
    rw [heq] at hp
    simp only at hp
    rw [handleLoop_overflow fwd bs rest sends b1 b2 tl ptr qd rem htk heq
      (not_ne_iff.mp hne) hov]
    have hbig : ¬(fwd qd).length ≤ 65535 := by omega
    simp only [List.cons_append, List.append_assoc, List.nil_append,
      framedResponses_cons_recv]
    rw [framedResponses_append_recvs ptr _ hp]
    exact framedResponses_cons_fwd_big qd (fwd qd) suffix hbig
  | case8 sends bs rest b1 b2 tl htk ptr qd rem heq hne hov sends2 tr e
      heqLoop hsend ih =>
    have hp := readPayload_trace_recvs (from_bytes_be (b1 :: b2 :: tl)) [] rest
    rw [heq] at hp
    simp only at hp
    rw [handleLoop_sendOk fwd bs rest sends b1 b2 tl ptr qd rem sends2 htk heq
      (not_ne_iff.mp hne) (Nat.not_le.mp hov) hsend]
    have hsmall : (fwd qd).length ≤ 65535 := by
      have := Nat.not_le.mp hov
      omega
    simp only [List.cons_append, List.append_assoc, List.nil_append,
      framedResponses_cons_recv]
    rw [framedResponses_append_recvs ptr _ hp]
    rw [framedResponses_cons_fwd_send qd (fwd qd)
      (to_bytes2 (fwd qd).length ++ fwd qd) true _ hsmall]
    simp [ih suffix]
  | case9 sends bs rest b1 b2 tl htk ptr qd rem heq hne hov ok sends2 hsend
      hok =>
    have hp := readPayload_trace_recvs (from_bytes_be (b1 :: b2 :: tl)) [] rest
    rw [heq] at hp
    simp only at hp
    have hf : ok = false := by revert hok; cases ok <;> simp
    rw [hf] at hsend
    rw [handleLoop_sendFail fwd bs rest sends b1 b2 tl ptr qd rem sends2 htk
      heq (not_ne_iff.mp hne) (Nat.not_le.mp hov) hsend]
    have hsmall : (fwd qd).length ≤ 65535 := by
      have := Nat.not_le.mp hov
      omega
    simp only [List.cons_append, List.append_assoc, List.nil_append,
      framedResponses_cons_recv]
    rw [framedResponses_append_recvs ptr _ hp]
    rw [framedResponses_cons_fwd_send qd (fwd qd)
      (to_bytes2 (fwd qd).length ++ fwd qd) false _ hsmall]
    simp

/-- C5: for every integer n in [0, 65535], decoding the 2-byte
big-endian encoding of n (as `handle_client` does via `int.from_bytes`
and `int.to_bytes`) yields n exactly. -/
theorem length_prefix_roundtrip (n : Nat) (h : n ≤ 65535) :
    from_bytes_be (to_bytes2 n) = n := by
  simp [from_bytes_be, to_bytes2]
  omega

theorem length_prefix_roundtrip_witness :
    (65535 : Nat) ≤ 65535 ∧ from_bytes_be (to_bytes2 65535) = 65535 :=
  ⟨by decide, length_prefix_roundtrip 65535 (by decide)⟩

/-- C1: `forward_dns_query` is total (it always returns a byte
sequence in this embedding) and on every failure — decode failure, or
upstream UDP timeout/network error (`udp _ = none`) — it returns
`create_error_response` on the original query bytes rather than
propagating the exception; on success it returns the serialized
upstream response. -/
theorem forward_never_raises_falls_back {Msg : Type} (c : Codec Msg)
    (udp : Msg → Option Msg) (query_data : List Nat) :
    (c.from_wire query_data = none →
      forward_dns_query c udp query_data =
        create_error_response c query_data) ∧
    (∀ q, c.from_wire query_data = some q → udp q = none →
      forward_dns_query c udp query_data =
        create_error_response c query_data) ∧
    (∀ q r, c.from_wire query_data = some q → udp q = some r →
      forward_dns_query c udp query_data = c.to_wire r) :=
  ⟨fun h => by simp [forward_dns_query, h],
   fun q hq hu => by simp [forward_dns_query, hq, hu],
   fun q r hq hu => by simp [forward_dns_query, hq, hu]⟩

theorem forward_never_raises_falls_back_witness :
    forward_dns_query testCodec (fun _ => none) [3, 0, 7] =
      create_error_response testCodec [3, 0, 7] :=
  (forward_never_raises_falls_back testCodec (fun _ => none) [3, 0, 7]).2.1
    ⟨3, [7], 0⟩ rfl rfl

/-- C3: when the codec recovers the query's identifier and question
from the bytes (`from_wire` succeeds — the code uses the same decode
entry point for recovery), `create_error_response` returns a
well-formed, non-empty serialized response carrying that identifier,
that question, and rcode SERVFAIL.  The codec-correctness hypotheses
state §6's "trusted as correct" contract of the external DNS codec. -/
theorem create_error_response_servfail_wellformed {Msg : Type}
    (c : Codec Msg) (query_data : List Nat) (q : Msg)
    (hdec : c.from_wire query_data = some q)
    (hrt : ∀ m, c.from_wire (c.to_wire m) = some m)
    (hne : ∀ m, c.to_wire m ≠ [])
    (hmi : ∀ m, c.ident (c.make_response m) = c.ident m)
    (hmq : ∀ m, c.question (c.make_response m) = c.question m)
    (hsi : ∀ m r, c.ident (c.set_rcode m r) = c.ident m)
    (hsq : ∀ m r, c.question (c.set_rcode m r) = c.question m)
    (hsr : ∀ m r, c.rcode (c.set_rcode m r) = r) :
    create_error_response c query_data ≠ [] ∧
    ∃ m, c.from_wire (create_error_response c query_data) = some m ∧
      c.ident m = c.ident q ∧ c.question m = c.question q ∧
      c.rcode m = SERVFAIL := by
  have hval : create_error_response c query_data =
      c.to_wire (c.set_rcode (c.make_response q) SERVFAIL) := by
    simp [create_error_response, hdec]
  rw [hval]
  refine ⟨hne _, c.set_rcode (c.make_response q) SERVFAIL, hrt _, ?_, ?_, ?_⟩
  · rw [hsi, hmi]
  · rw [hsq, hmq]
  · rw [hsr]

theorem create_error_response_servfail_wellformed_witness :
    create_error_response testCodec [7, 9, 1, 2] ≠ [] ∧
    ∃ m, testCodec.from_wire (create_error_response testCodec [7, 9, 1, 2]) =
        some m ∧
      testCodec.ident m = testCodec.ident ⟨7, [1, 2], 9⟩ ∧
      testCodec.question m = testCodec.question ⟨7, [1, 2], 9⟩ ∧
      testCodec.rcode m = SERVFAIL :=
  create_error_response_servfail_wellformed testCodec [7, 9, 1, 2]
    ⟨7, [1, 2], 9⟩ rfl (fun m => rfl) (fun m => by simp [testCodec])
    (fun m => rfl) (fun m => rfl) (fun m r => rfl) (fun m r => rfl)
    (fun m r => rfl)

/-- C2: on every execution of `handle_client` — whatever the recv/send
schedule, hence on clean EOF, framing violations, and every raised
exception — the TLS socket is closed exactly once, as the final
action before the handler returns. -/
theorem handle_client_closes_socket_once (fwd : List Nat → List Nat)
    (ns : NetSched) :
    closeCount (handle_client fwd ns).1 = 1 ∧
      (handle_client fwd ns).1.getLast? = some Action.closeA := by
  rcases h : handleLoop fwd ns.recvs ns.sends with ⟨tr, e⟩
  have hc := handleLoop_closeCount fwd ns.recvs ns.sends
  rw [h] at hc
  simp only at hc
  constructor
  · have hone : closeCount (tr ++ [Action.closeA]) = 1 := by
      rw [closeCount_append, hc]
      rfl
    simpa [handle_client, h] using hone
  · simp [handle_client, h]

/-- C7: every response buffer the Forwarder returns that the handler
sends is written as a 2-byte big-endian prefix equal to the response's
actual length immediately followed by the response bytes, on the same
session; no other send ever happens. -/
theorem responses_framed_exactly (fwd : List Nat → List Nat)
    (ns : NetSched) :
    framedResponses (handle_client fwd ns).1 = true := by
  rcases h : handleLoop fwd ns.recvs ns.sends with ⟨tr, e⟩
  have hf := handleLoop_framed fwd ns.recvs ns.sends [Action.closeA]
  rw [h] at hf
  simp only at hf
  rw [framedResponses_cons_close, framedResponses.eq_1] at hf
  simp [handle_client, h, hf]

theorem readPayload_full (L : Nat) (payload : List Nat)
    (rest : List RecvResult) (hlen : payload.length = L) (hpos : 0 < L) :
    readPayload L [] (.data payload :: rest) =
      ([Action.recvA L (.data payload)], .ok payload, rest) := by
  subst hlen
  rcases payload with _ | ⟨b, cs⟩
  · simp at hpos
  · have h1 : readPayload (cs.length + 1) (b :: cs) rest =
        ([], .ok (b :: cs), rest) := by
      rw [readPayload.eq_def]
      simp
    rw [readPayload.eq_def]
    simp [h1]

theorem readPayload_zero (rest : List RecvResult) :
    readPayload 0 [] rest = ([], .ok [], rest) := by
  rw [readPayload.eq_def]
  simp

theorem readPayload_eofFirst (L : Nat) (rest : List RecvResult)
    (hpos : 0 < L) :
    readPayload L [] (.data [] :: rest) =
      ([Action.recvA L (.data [])], .ok [], rest) := by
  rw [readPayload.eq_def]
  simp [hpos]

/-- C8: when the Forwarder's response exceeds 65535 bytes, encoding
the 2-byte length raises `OverflowError`: nothing of that response is
sent, the loop is torn down with exit `overflowExc`, and the socket is
still closed exactly once (the single trailing `closeA`). -/
theorem oversized_response_raises_no_send (fwd : List Nat → List Nat)
    (b1 b2 : Nat) (payload : List Nat) (rest : List RecvResult)
    (sends : List Bool)
    (hlen : payload.length = from_bytes_be [b1, b2])
    (hpos : 0 < payload.length)
    (hov : 65536 ≤ (fwd payload).length) :
    handle_client fwd ⟨.data [b1, b2] :: .data payload :: rest, sends⟩ =
      ([Action.recvA 2 (.data [b1, b2]),
        Action.recvA (from_bytes_be [b1, b2]) (.data payload),
        Action.fwdA payload (fwd payload),
        Action.closeA], .overflowExc) := by
  have hpos' : 0 < from_bytes_be [b1, b2] := hlen ▸ hpos
  have hrp := readPayload_full (from_bytes_be [b1, b2]) payload rest hlen hpos'
  simp only [handle_client]
  rw [handleLoop_overflow fwd [b1, b2] (.data payload :: rest) sends b1 b2 []
    [Action.recvA (from_bytes_be [b1, b2]) (.data payload)] payload rest rfl
    hrp hlen hov]
  simp

theorem oversized_response_raises_no_send_witness :
    handle_client (fun _ => List.replicate 65536 0)
      ⟨[.data [0, 1], .data [5]], []⟩ =
      ([Action.recvA 2 (.data [0, 1]),
        Action.recvA (from_bytes_be [0, 1]) (.data [5]),
        Action.fwdA [5] (List.replicate 65536 0),
        Action.closeA], .overflowExc) :=
  oversized_response_raises_no_send (fun _ => List.replicate 65536 0)
    0 1 [5] [] [] (by decide) (by decide)
    (by rw [List.length_replicate])

/-- C6: in the framing loop, a zero-byte read at the length stage
terminates cleanly (`cleanEOF`); a nonzero read of fewer than 2
length bytes is a protocol violation (`shortLength`); peer closure
before the declared L payload bytes arrive is a protocol violation
(`shortPayload`).  In all three cases the handler forwards nothing and
writes nothing for that frame — the trace holds only the reads and the
single close. -/
theorem framing_terminations_no_response (fwd : List Nat → List Nat)
    (rest : List RecvResult) (sends : List Bool) (b hi lo : Nat)
    (hpos : 0 < from_bytes_be [hi, lo]) :
    handle_client fwd ⟨.data [] :: rest, sends⟩ =
      ([Action.recvA 2 (.data []), Action.closeA], .cleanEOF) ∧
    handle_client fwd ⟨.data [b] :: rest, sends⟩ =
      ([Action.recvA 2 (.data [b]), Action.closeA], .shortLength) ∧
    handle_client fwd ⟨.data [hi, lo] :: .data [] :: rest, sends⟩ =
      ([Action.recvA 2 (.data [hi, lo]),
        Action.recvA (from_bytes_be [hi, lo]) (.data []),
        Action.closeA], .shortPayload) := by
  refine ⟨?_, ?_, ?_⟩
  · simp only [handle_client]
    rw [handleLoop_eof fwd [] rest sends rfl]
    rfl
  · simp only [handle_client]
    rw [handleLoop_short fwd [b] rest sends b rfl]
    rfl
  · simp only [handle_client]
    rw [handleLoop_mismatch fwd [hi, lo] (.data [] :: rest) sends hi lo []
      [Action.recvA (from_bytes_be [hi, lo]) (.data [])] [] rest rfl
      (readPayload_eofFirst (from_bytes_be [hi, lo]) rest hpos)
      (by simpa using Nat.ne_of_lt hpos)]
    rfl

theorem framing_terminations_no_response_witness :
    handle_client (fun q => q) ⟨.data [] :: [], []⟩ =
      ([Action.recvA 2 (.data []), Action.closeA], .cleanEOF) ∧
    handle_client (fun q => q) ⟨.data [9] :: [], []⟩ =
      ([Action.recvA 2 (.data [9]), Action.closeA], .shortLength) ∧
    handle_client (fun q => q) ⟨.data [0, 3] :: .data [] :: [], []⟩ =
      ([Action.recvA 2 (.data [0, 3]),
        Action.recvA (from_bytes_be [0, 3]) (.data []),
        Action.closeA], .shortPayload) :=
  framing_terminations_no_response (fun q => q) [] [] 9 0 3 (by decide)

/-- C10: the handler issues a single `recv(2)` for the length prefix
and never re-reads: if that read returns exactly 1 byte, the
connection is closed as a protocol violation even when further bytes
(an arbitrary remaining schedule `rest`) are still deliverable. -/
theorem one_byte_length_is_violation (fwd : List Nat → List Nat)
    (b : Nat) (hb : b < 256) (rest : List RecvResult) (sends : List Bool) :
    handle_client fwd ⟨.data [b] :: rest, sends⟩ =
      ([Action.recvA 2 (.data [b]), Action.closeA], .shortLength) := by
  simp only [handle_client]
  rw [handleLoop_short fwd [b] rest sends b rfl]
  rfl


theorem one_byte_length_is_violation_witness :
    handle_client (fun q => q)
      ⟨.data [7] :: [.data [0, 1], .data [42]], []⟩ =
      ([Action.recvA 2 (.data [7]), Action.closeA], .shortLength) :=
  one_byte_length_is_violation (fun q => q) 7 (by decide)
    [.data [0, 1], .data [42]] []

/-- C4: when even minimal recovery fails (`from_wire` fails on the
query bytes), `create_error_response` returns the empty byte sequence,
and the handler still sends a zero-length framed reply — the 2-byte
big-endian encoding of 0 followed by no payload — on the session
instead of dropping the connection, then proceeds to await the next
query (the trace continues with the loop on the remaining
schedule). -/
theorem empty_error_response_zero_length_frame {Msg : Type} (c : Codec Msg)
    (udp : Msg → Option Msg) (b1 b2 : Nat) (payload : List Nat)
    (rest : List RecvResult) (sends : List Bool)
    (hlen : payload.length = from_bytes_be [b1, b2])
    (hpos : 0 < payload.length)
    (hq : c.from_wire payload = none) :
    create_error_response c payload = [] ∧
    handle_client (forward_dns_query c udp)
        ⟨.data [b1, b2] :: .data payload :: rest, true :: sends⟩ =
      (Action.recvA 2 (.data [b1, b2]) ::
        Action.recvA (from_bytes_be [b1, b2]) (.data payload) ::
        Action.fwdA payload [] ::
        Action.sendA [0, 0] true ::
        ((handleLoop (forward_dns_query c udp) rest sends).1 ++
          [Action.closeA]),
       (handleLoop (forward_dns_query c udp) rest sends).2) := by
  have hcer : create_error_response c payload = [] := by
    simp [create_error_response, hq]
  have hfwd : forward_dns_query c udp payload = [] := by
    simp [forward_dns_query, hq, hcer]
  refine ⟨hcer, ?_⟩
  have hpos' : 0 < from_bytes_be [b1, b2] := hlen ▸ hpos
  have hrp := readPayload_full (from_bytes_be [b1, b2]) payload rest hlen hpos'
  simp only [handle_client]
  rw [handleLoop_sendOk (forward_dns_query c udp) [b1, b2]
    (.data payload :: rest) (true :: sends) b1 b2 []
    [Action.recvA (from_bytes_be [b1, b2]) (.data payload)] payload rest sends
    rfl hrp hlen (by rw [hfwd]; simp) rfl]
  simp [hfwd, to_bytes2]

theorem empty_error_response_zero_length_frame_witness :
    create_error_response testCodec [5] = [] ∧
    handle_client (forward_dns_query testCodec (fun _ => none))
        ⟨[.data [0, 1], .data [5]], [true]⟩ =
      (Action.recvA 2 (.data [0, 1]) ::
        Action.recvA (from_bytes_be [0, 1]) (.data [5]) ::
        Action.fwdA [5] [] ::
        Action.sendA [0, 0] true ::
        ((handleLoop (forward_dns_query testCodec (fun _ => none)) [] []).1 ++
          [Action.closeA]),
       (handleLoop (forward_dns_query testCodec (fun _ => none)) [] []).2) :=
  empty_error_response_zero_length_frame testCodec (fun _ => none) 0 1 [5]
    [] [] (by decide) (by decide) rfl

/-- C9: a frame with declared length 0 is accepted: the payload loop
collects zero bytes, the completeness check passes, the Forwarder is
called on the empty byte sequence; since the decode fails on empty
input — in both `forward_dns_query` and `create_error_response` — the
reply is empty, so the handler sends a zero-length framed reply and
keeps the connection open for further queries (the trace continues
with the loop on the remaining schedule). -/
theorem zero_length_frame_forwarded_empty {Msg : Type} (c : Codec Msg)
    (udp : Msg → Option Msg) (rest : List RecvResult) (sends : List Bool)
    (hq : c.from_wire [] = none) :
    forward_dns_query c udp [] = [] ∧
    handle_client (forward_dns_query c udp)
        ⟨.data [0, 0] :: rest, true :: sends⟩ =
      (Action.recvA 2 (.data [0, 0]) ::
        Action.fwdA [] [] ::
        Action.sendA [0, 0] true ::
        ((handleLoop (forward_dns_query c udp) rest sends).1 ++
          [Action.closeA]),
       (handleLoop (forward_dns_query c udp) rest sends).2) := by
  have hcer : create_error_response c [] = [] := by
    simp [create_error_response, hq]
  have hfwd : forward_dns_query c udp [] = [] := by
    simp [forward_dns_query, hq, hcer]
  refine ⟨hfwd, ?_⟩
  have hrp : readPayload (from_bytes_be [0, 0]) [] rest =
      ([], .ok [], rest) := readPayload_zero rest
  simp only [handle_client]
  rw [handleLoop_sendOk (forward_dns_query c udp) [0, 0] rest (true :: sends)
    0 0 [] [] [] rest sends rfl hrp rfl (by rw [hfwd]; simp) rfl]
  simp [hfwd, to_bytes2]

theorem zero_length_frame_forwarded_empty_witness :
    forward_dns_query testCodec (fun _ => none) [] = [] ∧
    handle_client (forward_dns_query testCodec (fun _ => none))
        ⟨[.data [0, 0]], [true]⟩ =
      (Action.recvA 2 (.data [0, 0]) ::
        Action.fwdA [] [] ::
        Action.sendA [0, 0] true ::
        ((handleLoop (forward_dns_query testCodec (fun _ => none)) [] []).1 ++
          [Action.closeA]),
       (handleLoop (forward_dns_query testCodec (fun _ => none)) [] []).2) :=
  zero_length_frame_forwarded_empty testCodec (fun _ => none) [] [] rfl

end Tldns
